import Mathlib

/-!
Verification of the download-queue core of the calibre-web book downloader.

The definitions below are a shallow embedding of `src/backend.py`
(the fetch-and-publish worker `_download_book_with_cancellation`,
the per-job driver `_process_single_download`, the progress callback
`update_download_progress`, the coordinator `concurrent_download_loop`,
the filename helpers, and the local read path `get_book_data`).

The module `models.py` (class `BookQueue`) is not part of the source tree;
where its behaviour is needed (the priority scheduler behind
`book_queue.get_next`, and the plain record-store writes
`update_status` / `update_progress` / `update_download_path`) it is
modelled from the specification, as marked in the doc comments.
-/

namespace CWABD

/-- Job status values of `models.QueueStatus`.
Modelled from the spec: `models.py` is not under `src/`; section 3 of the
spec lists the states `Queued, Processing, Downloading, Available, Error,
Cancelled`, which is exactly the set used by `backend.py`. -/
inductive QueueStatus where
  | queued
  | processing
  | downloading
  | available
  | error
  | cancelled
deriving DecidableEq, Repr

/-- A status is terminal when no automatic transition leaves it. -/
def isTerminal (st : QueueStatus) : Bool :=
  st = QueueStatus.available || st = QueueStatus.error || st = QueueStatus.cancelled

/-- The slice of a tracked job record that `update_download_progress`
touches: the status field and the stored progress value.  The progress
value itself (a Python float) is treated as an opaque value of type `π`;
none of the verified properties depend on float arithmetic. -/
structure TrackedJob (π : Type) where
  status : QueueStatus
  progress : π
deriving DecidableEq, Repr

/-- Embedding of `backend.update_download_progress` (backend.py lines
212-219): read the current status; if it is `PROCESSING`, write
`DOWNLOADING`; then write the progress value.  The store operations
`book_queue.get_status_for_book` / `update_status` / `update_progress`
are plain field reads and writes (modelled from the spec, section 4.1:
the Job Record Store is a key-value table with atomic per-key writes). -/
def update_download_progress {π : Type} (j : TrackedJob π) (p : π) : TrackedJob π :=
  let current_status := j.status
  let j1 := if current_status = QueueStatus.processing
    then { j with status := QueueStatus.downloading }
    else j
  { j1 with progress := p }

/-- The status component of one progress-callback invocation. -/
def progressStep (st : QueueStatus) : QueueStatus :=
  (update_download_progress (π := Unit) ⟨st, ()⟩ ()).status

/-- Embedding of `backend._sanitize_filename` (backend.py lines 23-26):
keep alphanumeric characters and the characters space, dot and
underscore, then strip trailing whitespace.  `Char.isAlphanum` models
the Python `str.isalnum` on the ASCII inputs considered here; after the
filter the only whitespace character that can remain is the space, so
`rstrip()` is exactly the removal of trailing spaces. -/
def sanitize_filename (filename : String) : String :=
  let kept := filename.data.filter
    (fun c => c.isAlphanum || c = ' ' || c = '.' || c = '_')
  String.mk (kept.reverse.dropWhile (fun c => c = ' ')).reverse

/-- Embedding of the staging-filename derivation of
`_download_book_with_cancellation` (backend.py lines 139-144):
`book_name = (sanitized title if USE_BOOK_TITLE else book_id) + "." + format`.
The same name is used both for the staging path `TMP_DIR / book_name`
and for the final path `INGEST_DIR / book_name`. -/
def bookFileName (useBookTitle : Bool) (bookId title fmt : String) : String :=
  (if useBookTitle then sanitize_filename title else bookId) ++ "." ++ fmt

/-- Observable state of a file at one path. -/
inductive FileState where
  | absent
  | halfWritten
  | complete
deriving DecidableEq, Repr

/-- The three paths a worker run touches for one job: the staging file
`TMP_DIR / book_name`, the intermediate file
`INGEST_DIR / (book_id + ".crdownload")`, and the final public file
`INGEST_DIR / book_name`. -/
structure FS where
  tmp : FileState
  inter : FileState
  fin : FileState
deriving DecidableEq, Repr

/-- Filesystem with no file written for the job yet. -/
def fs0 : FS := ⟨FileState.absent, FileState.absent, FileState.absent⟩

/-- Static configuration of a worker run: the `USE_BOOK_TITLE` env flag
and whether `CUSTOM_SCRIPT` is configured (non-empty). -/
structure WorkerCfg where
  useBookTitle : Bool
  hasCustomScript : Bool
deriving DecidableEq, Repr

/-- Metadata of the book being downloaded, as resolved from the record
store (`book_info.title` and `book_info.format`). -/
structure BookMeta where
  title : String
  fmt : String
deriving DecidableEq, Repr

/-- Environment of one worker run.  The run is deterministic given this
record; each field resolves one external or concurrent choice:

* `cancelAt`: index of the earliest cancellation checkpoint at which
  `cancel_flag.is_set()` reads true (`none` when the flag is never
  observed set during the run).  Checkpoints are numbered in program
  order: 0 = backend.py line 132, 1 = line 147, 2 = line 157,
  3 = line 168, 4 = line 195, 5 = line 277 (in
  `_process_single_download`).  Because the underlying `threading.Event`
  is one-way, an observation at checkpoint `t` implies an observation at
  every later checkpoint, which the model enforces by construction.
* `metaOk`: whether `book_queue._book_data[book_id]` succeeds (a missing
  key raises, caught by the catch-all at line 205).
* `fetchRaises` / `fetchSuccess`: whether `book_manager.download_book`
  raises, and otherwise its boolean result.
* `tmpAfterFetch`: state of the staging file when the fetch call
  returns or raises.
* `progressCalls`: how many times the fetch invoked the progress
  callback.
* `scriptRaises`: whether `subprocess.run([CUSTOM_SCRIPT, book_path])`
  raises (for example an unrunnable script raises `FileNotFoundError`);
  a script that runs and exits with a failure status does not raise and
  its exit code is never inspected by the code.
* `scriptKeepsTmp`: whether the staging file still exists after the
  script ran (an external script may move or delete it).
* `moveSucceeds`: whether the move / move / copyfile fallback chain of
  lines 183-192 lands the file at the intermediate path (when all three
  attempts raise, the exception escapes to line 205).
* `renameRaises`: whether `os.rename(intermediate_path, final_path)`
  raises. -/
structure WorkerEnv where
  cancelAt : Option Nat
  metaOk : Bool
  meta : BookMeta
  fetchRaises : Bool
  fetchSuccess : Bool
  tmpAfterFetch : FileState
  progressCalls : Nat
  scriptRaises : Bool
  scriptKeepsTmp : Bool
  moveSucceeds : Bool
  renameRaises : Bool
deriving DecidableEq, Repr

/-- Whether the cancellation checkpoint with index `k` observes the
flag set in environment `env`. -/
def flagSeen (env : WorkerEnv) (k : Nat) : Bool :=
  match env.cancelAt with
  | none => false
  | some t => t ≤ k

/-- Result of `_download_book_with_cancellation`: the returned value
(`some name` for `str(final_path)`, `none` for the `return None` and
exception paths), the final filesystem state, whether an exception was
raised inside the function body (and swallowed by the catch-all at
line 205), and whether the fetch call at line 152 was reached. -/
structure DlResult where
  ret : Option String
  fs : FS
  raised : Bool
  fetchInvoked : Bool
deriving DecidableEq, Repr

/-- Embedding of the publish block of
`backend._download_book_with_cancellation` (backend.py lines 178-204),
entered with `fs2` the filesystem state after the optional custom
script: `if os.path.exists(book_path)` guards the move to the
intermediate path (lines 183-192), checkpoint 4 (line 195) deletes the
intermediate file on observed cancellation, and `os.rename` (line 201)
is the only write to the final public path.  Line 204 returns
`str(final_path)` in both the published and the skipped case. -/
def publishPhase (bookName : String) (env : WorkerEnv) (fs2 : FS) : DlResult :=
  if fs2.tmp ≠ FileState.absent then
    if env.moveSucceeds then
      let fs3 : FS := { fs2 with tmp := FileState.absent, inter := fs2.tmp }
      if flagSeen env 4 then ⟨none, { fs3 with inter := FileState.absent }, false, true⟩
      else if env.renameRaises then ⟨none, fs3, true, true⟩
      else ⟨some bookName, { fs3 with inter := FileState.absent, fin := fs3.inter }, false, true⟩
    else
      -- all three move attempts raise; the copy may have written a
      -- partial intermediate file, and the exception escapes to line 205
      ⟨none, { fs2 with inter := FileState.halfWritten }, true, true⟩
  else
    -- line 204 is reached with the publish block skipped: the final
    -- path is returned although nothing was published
    ⟨some bookName, fs2, false, true⟩

/-- Embedding of `backend._download_book_with_cancellation` after the
fetch call returned or raised (backend.py lines 154-204), entered with
`fs1` the filesystem state left by the fetch: checkpoint 2 (line 157)
and checkpoint 3 (line 168) delete the staging file on observed
cancellation, `if not success: raise` is line 164, and lines 174-176
run the optional custom script (its exit status is ignored; a raise
from `subprocess.run` escapes to the catch-all at line 205). -/
def postFetchPhase (cfg : WorkerCfg) (env : WorkerEnv) (bookName : String)
    (fs1 : FS) : DlResult :=
  if env.fetchRaises then ⟨none, fs1, true, true⟩
  else if flagSeen env 2 then ⟨none, { fs1 with tmp := FileState.absent }, false, true⟩
  else if env.fetchSuccess = false then ⟨none, fs1, true, true⟩
  else if flagSeen env 3 then ⟨none, { fs1 with tmp := FileState.absent }, false, true⟩
  else if cfg.hasCustomScript && env.scriptRaises then ⟨none, fs1, true, true⟩
  else
    publishPhase bookName env
      (if cfg.hasCustomScript && !env.scriptKeepsTmp
        then { fs1 with tmp := FileState.absent } else fs1)

/-- Embedding of `backend._download_book_with_cancellation`
(backend.py lines 120-210): checkpoint 0 (line 132), the metadata
lookup (line 136, a missing key raises and is caught at line 205), the
staging-filename derivation (lines 139-144), checkpoint 1 (line 147),
then the fetch call (line 152) writing the staging file, continued by
`postFetchPhase`. -/
def downloadBook (cfg : WorkerCfg) (bookId : String) (env : WorkerEnv) : DlResult :=
  if flagSeen env 0 then ⟨none, fs0, false, false⟩
  else if env.metaOk = false then ⟨none, fs0, true, false⟩
  else
    let bookName := bookFileName cfg.useBookTitle bookId env.meta.title env.meta.fmt
    if flagSeen env 1 then ⟨none, fs0, false, false⟩
    else postFetchPhase cfg env bookName { fs0 with tmp := env.tmpAfterFetch }

/-- Statuses written by successive progress-callback invocations,
starting from status `st`: each invocation applies
`update_download_progress` to the current record. -/
def callbackStatuses : Nat → QueueStatus → List QueueStatus
  | 0, _ => []
  | n + 1, st =>
    let st2 := progressStep st
    st2 :: callbackStatuses n st2

/-- Result of one `_process_single_download` run: the terminal status
written to the store, the download path written to the store (if any),
the final filesystem state, and the sequence of status values the job
record held over the run (first entry `processing`, written at line
274, then one entry per progress callback, then the terminal write). -/
structure ProcResult where
  status : QueueStatus
  downloadPath : Option String
  fs : FS
  statusTrace : List QueueStatus
deriving DecidableEq, Repr

/-- Embedding of `backend._process_single_download` (backend.py lines
271-299): set `PROCESSING`, run the download, then checkpoint 5 (line
277) decides `CANCELLED`; otherwise a returned path yields
`update_download_path` followed by `AVAILABLE`, and `None` yields
`ERROR`.  The store writes are plain field updates (modelled from the
spec, section 4.1). -/
def processSingleDownload (cfg : WorkerCfg) (bookId : String) (env : WorkerEnv) : ProcResult :=
  let d := downloadBook cfg bookId env
  let finalStatus :=
    if flagSeen env 5 then QueueStatus.cancelled
    else if d.ret.isSome then QueueStatus.available
    else QueueStatus.error
  let dlPath :=
    if flagSeen env 5 then none
    else if d.ret.isSome then d.ret
    else none
  let trace :=
    QueueStatus.processing ::
      ((if d.fetchInvoked then callbackStatuses env.progressCalls QueueStatus.processing else [])
        ++ [finalStatus])
  ⟨finalStatus, dlPath, d.fs, trace⟩

/-- The slice of a job record that `get_book_data` touches. -/
structure BookRec where
  status : QueueStatus
  download_path : Option String
deriving DecidableEq, Repr

/-- Embedding of `backend.get_book_data` (backend.py lines 93-111):
open the stored `download_path` and return its bytes (abstracted to
`Unit`); on any exception (a `none` path, or an unreadable file, the
latter modelled by `readOk = false`) the handler sets
`book_info.download_path = None` and returns no data.  The status field
is never written. -/
def get_book_data (j : BookRec) (readOk : Bool) : Option Unit × BookRec :=
  match j.download_path with
  | some _ =>
    if readOk then (some (), j)
    else (none, { j with download_path := none })
  | none => (none, { j with download_path := none })

/-- The claimed store invariant: the download path is set exactly on the
jobs whose status is `Available`. -/
def pathStatusInv (j : BookRec) : Prop :=
  j.download_path ≠ none ↔ j.status = QueueStatus.available

/-- One scheduler entry for a queued job: identifier, priority (lower is
served first) and the monotone insertion sequence number. -/
structure QEntry where
  bookId : String
  priority : Int
  seq : Nat
deriving DecidableEq, Repr

/-- Strict scheduling order: `a` is served strictly before `b`. -/
def entryBefore (a b : QEntry) : Bool :=
  a.priority < b.priority || (a.priority = b.priority && a.seq < b.seq)

/-- Reflexive scheduling order used to state the handed-out ordering:
lower priority first, and insertion order among equal priorities. -/
def entryLe (a b : QEntry) : Prop :=
  a.priority < b.priority ∨ (a.priority = b.priority ∧ a.seq ≤ b.seq)

/-- Select the minimal entry (by `entryBefore`) among `x :: l`, returning
it together with the remaining entries.  Ties keep the earlier entry. -/
def selectMin (x : QEntry) : List QEntry → QEntry × List QEntry
  | [] => (x, [])
  | y :: ys =>
    if entryBefore y x then
      let p := selectMin y ys
      (p.1, x :: p.2)
    else
      let p := selectMin x ys
      (p.1, y :: p.2)

theorem selectMin_snd_length (x : QEntry) (l : List QEntry) :
    (selectMin x l).2.length = l.length := by
  induction l generalizing x with
  | nil => rfl
  | cons y ys ih =>
    simp only [selectMin]
    split <;> simp [ih]

/-- Embedding of the scheduler pick behind `book_queue.get_next`.
Modelled from the spec: `models.py` is not under `src/`; section 4.2
states that `nextRunnable()` atomically selects the minimal element of
the queued set, primary key `priority` ascending, secondary key
`insertionSeq` ascending, removes it from the queue and returns it
(`none` when no queued job exists). -/
def get_next : List QEntry → Option (QEntry × List QEntry)
  | [] => none
  | x :: xs => some (selectMin x xs)

/-- The full sequence of jobs handed out by successive `get_next` calls,
starting from queue contents `l`, with no interleaved enqueues. -/
def drain : List QEntry → List QEntry
  | [] => []
  | x :: xs =>
    let p := selectMin x xs
    p.1 :: drain p.2
termination_by l => l.length
decreasing_by simp [selectMin_snd_length]

/-- Queue contents after a sequence of enqueue operations, in order:
the i-th enqueue receives insertion sequence number i. -/
def entriesOf (es : List (String × Int)) : List QEntry :=
  es.enum.map (fun ip => ⟨ip.2.1, ip.2.2, ip.1⟩)

/-- One tracked job, as seen by the coordinator: identifier and status. -/
structure JobRec where
  bookId : String
  status : QueueStatus
deriving DecidableEq, Repr

/-- Global state of the coordinator system of
`backend.concurrent_download_loop` (backend.py lines 301-332): the
tracked job records, and the `active_futures` table, each entry a pair
of the job identifier and a flag that is true once the future is done
(its worker has returned). -/
structure CoordState where
  jobs : List JobRec
  active : List (String × Bool)
deriving DecidableEq, Repr

/-- Initial coordinator state: no jobs tracked, no futures. -/
def initCoord : CoordState := ⟨[], []⟩

/-- Record-store status write `book_queue.update_status` over the job
list (modelled from the spec, section 4.1: a plain keyed write). -/
def setStatus (jobs : List JobRec) (bid : String) (st : QueueStatus) : List JobRec :=
  jobs.map (fun j => if j.bookId = bid then { j with status := st } else j)

/-- Effect of one progress callback on the job list: the status
component of `update_download_progress` applied to the job. -/
def applyProgressTo (jobs : List JobRec) (bid : String) : List JobRec :=
  jobs.map (fun j => if j.bookId = bid then { j with status := progressStep j.status } else j)

/-- Mark the future of job `bid` as done. -/
def markDone (active : List (String × Bool)) (bid : String) : List (String × Bool) :=
  active.map (fun p => if p.1 = bid then (p.1, true) else p)

/-- A job counts as in flight when its status is `Processing` or
`Downloading`. -/
def inFlight (j : JobRec) : Bool :=
  j.status = QueueStatus.processing || j.status = QueueStatus.downloading

/-- Small-step transitions of the coordinator system with pool size `N`,
interleaving the coordinator loop (backend.py lines 301-332), the worker
bodies (lines 271-299 and 212-219) and external enqueues:

* `enqueue`: `queue_book` adds a fresh tracked record with status
  `Queued` (re-enqueue of a tracked identifier never duplicates a
  record, spec section 3).
* `submit`: lines 319-329 — only taken while `len(active_futures)` is
  strictly below `N`; `book_queue.get_next` hands out a queued job and
  the submitted worker sets its status to `Processing` (line 274).
* `progress`: a running worker invokes the progress callback (lines
  212-219) on its job.
* `finish`: a running worker returns, having written a terminal status
  (lines 277-299); its future becomes done.
* `reap`: lines 310-316 — the loop removes the futures that are done. -/
inductive CoordStep (N : Nat) : CoordState → CoordState → Prop
  | enqueue (s : CoordState) (bid : String)
      (hfresh : bid ∉ s.jobs.map JobRec.bookId) :
      CoordStep N s ⟨s.jobs ++ [⟨bid, QueueStatus.queued⟩], s.active⟩
  | submit (s : CoordState) (bid : String)
      (hcap : s.active.length < N)
      (hq : (⟨bid, QueueStatus.queued⟩ : JobRec) ∈ s.jobs) :
      CoordStep N s ⟨setStatus s.jobs bid QueueStatus.processing, s.active ++ [(bid, false)]⟩
  | progress (s : CoordState) (bid : String)
      (hrun : (bid, false) ∈ s.active) :
      CoordStep N s ⟨applyProgressTo s.jobs bid, s.active⟩
  | finish (s : CoordState) (bid : String) (t : QueueStatus)
      (hrun : (bid, false) ∈ s.active)
      (ht : isTerminal t = true) :
      CoordStep N s ⟨setStatus s.jobs bid t, markDone s.active bid⟩
  | reap (s : CoordState) :
      CoordStep N s ⟨s.jobs, s.active.filter (fun p => !p.2)⟩

/-- States reachable by the coordinator system from the initial state. -/
inductive CoordReachable (N : Nat) : CoordState → Prop
  | init : CoordReachable N initCoord
  | step {s t : CoordState} :
      CoordReachable N s → CoordStep N s t → CoordReachable N t

/-- Number of tracked jobs whose status is `Processing` or
`Downloading`. -/
def countInFlight (s : CoordState) : Nat :=
  (s.jobs.filter inFlight).length

/-- Inductive invariant of the coordinator system: tracked identifiers
are distinct, the futures table never exceeds the pool size, and every
in-flight job has a not-yet-done future. -/
def CoordInv (N : Nat) (s : CoordState) : Prop :=
  (s.jobs.map JobRec.bookId).Nodup ∧
  s.active.length ≤ N ∧
  ∀ j ∈ s.jobs, inFlight j = true → (j.bookId, false) ∈ s.active

theorem map_preserve_bookId {f : JobRec → JobRec}
    (h : ∀ j, (f j).bookId = j.bookId) (jobs : List JobRec) :
    (jobs.map f).map JobRec.bookId = jobs.map JobRec.bookId := by
  rw [List.map_map]
  induction jobs with
  | nil => rfl
  | cons j js ih => simp [Function.comp, h j, ih]

theorem setStatus_map_bookId (jobs : List JobRec) (bid : String) (st : QueueStatus) :
    (setStatus jobs bid st).map JobRec.bookId = jobs.map JobRec.bookId :=
  map_preserve_bookId (fun j => by by_cases h : j.bookId = bid <;> simp [h]) jobs

theorem applyProgressTo_map_bookId (jobs : List JobRec) (bid : String) :
    (applyProgressTo jobs bid).map JobRec.bookId = jobs.map JobRec.bookId :=
  map_preserve_bookId (fun j => by by_cases h : j.bookId = bid <;> simp [h]) jobs

theorem not_inFlight_of_terminal (b : String) (t : QueueStatus)
    (ht : isTerminal t = true) : inFlight ⟨b, t⟩ = false := by
  cases t <;> simp_all [isTerminal, inFlight]

theorem mem_markDone_of_fst_ne {x bid : String} {b : Bool}
    {a : List (String × Bool)} (hmem : (x, b) ∈ a) (hne : x ≠ bid) :
    (x, b) ∈ markDone a bid := by
  have h := List.mem_map_of_mem
    (fun p : String × Bool => if p.1 = bid then (p.1, true) else p) hmem
  simpa [markDone, hne] using h

theorem coordInv_step {N : Nat} {s t : CoordState}
    (hstep : CoordStep N s t) (hinv : CoordInv N s) : CoordInv N t := by
  obtain ⟨hnd, hlen, hfl⟩ := hinv
  cases hstep with
  | enqueue bid hfresh =>
    refine ⟨?_, hlen, ?_⟩
    · simp only [List.map_append, List.map_cons, List.map_nil]
      rw [List.nodup_append]
      refine ⟨hnd, List.nodup_singleton _, ?_⟩
      intro x hx hx2
      rw [List.mem_singleton] at hx2
      subst hx2
      exact hfresh hx
    · intro j hj hfj
      rcases List.mem_append.1 hj with hj1 | hj2
      · exact hfl j hj1 hfj
      · rw [List.mem_singleton.1 hj2] at hfj
        simp [inFlight] at hfj
  | submit bid hcap hq =>
    refine ⟨?_, ?_, ?_⟩
    · rw [setStatus_map_bookId]; exact hnd
    · simp only [List.length_append, List.length_cons, List.length_nil]
      omega
    · intro j hj hfj
      obtain ⟨j0, hj0, hj0eq⟩ := List.mem_map.1 hj
      by_cases h : j0.bookId = bid
      · rw [← hj0eq]
        simp [h]
      · rw [if_neg h] at hj0eq
        subst hj0eq
        exact List.mem_append_left _ (hfl j0 hj0 hfj)
  | progress bid hrun =>
    refine ⟨?_, hlen, ?_⟩
    · rw [applyProgressTo_map_bookId]; exact hnd
    · intro j hj hfj
      obtain ⟨j0, hj0, hj0eq⟩ := List.mem_map.1 hj
      by_cases h : j0.bookId = bid
      · have : j.bookId = bid := by rw [← hj0eq]; simp [h]
        rw [this]; exact hrun
      · rw [if_neg h] at hj0eq
        subst hj0eq
        exact hfl j0 hj0 hfj
  | finish bid t hrun ht =>
    refine ⟨?_, ?_, ?_⟩
    · rw [setStatus_map_bookId]; exact hnd
    · simpa [markDone] using hlen
    · intro j hj hfj
      obtain ⟨j0, hj0, hj0eq⟩ := List.mem_map.1 hj
      by_cases h : j0.bookId = bid
      · rw [if_pos h] at hj0eq
        rw [← hj0eq] at hfj
        rw [not_inFlight_of_terminal j0.bookId t ht] at hfj
        exact absurd hfj (by simp)
      · rw [if_neg h] at hj0eq
        subst hj0eq
        exact mem_markDone_of_fst_ne (hfl j0 hj0 hfj) h
  | reap =>
    refine ⟨hnd, le_trans (List.length_filter_le _ _) hlen, ?_⟩
    intro j hj hfj
    exact List.mem_filter.2 ⟨hfl j hj hfj, by simp⟩

theorem coordInv_reachable {N : Nat} {s : CoordState}
    (h : CoordReachable N s) : CoordInv N s := by
  induction h with
  | init => exact ⟨by simp [initCoord], by simp [initCoord], by simp [initCoord]⟩
  | step _ hstep ih => exact coordInv_step hstep ih

theorem countInFlight_le_active {N : Nat} {s : CoordState}
    (h : CoordInv N s) : countInFlight s ≤ s.active.length := by
  classical
  obtain ⟨hnd, -, hfl⟩ := h
  have hsub : (s.jobs.filter inFlight).Sublist s.jobs := List.filter_sublist _
  have hndl : ((s.jobs.filter inFlight).map JobRec.bookId).Nodup :=
    hnd.sublist (hsub.map _)
  have hmem : ∀ x ∈ (s.jobs.filter inFlight).map JobRec.bookId,
      (x, false) ∈ s.active := by
    intro x hx
    obtain ⟨j, hj, hjx⟩ := List.mem_map.1 hx
    have hj2 := List.mem_filter.1 hj
    exact hjx ▸ hfl j hj2.1 hj2.2
  have hinj : Function.Injective (fun x : String => (x, false)) := by
    intro a b hab
    simpa using congrArg Prod.fst hab
  have hpnd : (((s.jobs.filter inFlight).map JobRec.bookId).map
      (fun x => (x, false))).Nodup := hndl.map hinj
  have hsubF : (((s.jobs.filter inFlight).map JobRec.bookId).map
      (fun x => (x, false))).toFinset ⊆ s.active.toFinset := by
    intro p hp
    rw [List.mem_toFinset] at hp ⊢
    obtain ⟨x, hx, hxp⟩ := List.mem_map.1 hp
    exact hxp ▸ hmem x hx
  calc countInFlight s
      = (((s.jobs.filter inFlight).map JobRec.bookId).map
          (fun x => (x, false))).length := by simp [countInFlight]
    _ = (((s.jobs.filter inFlight).map JobRec.bookId).map
          (fun x => (x, false))).toFinset.card :=
        (List.toFinset_card_of_nodup hpnd).symm
    _ ≤ s.active.toFinset.card := Finset.card_le_card hsubF
    _ ≤ s.active.length := List.toFinset_card_le _

/-- Claim C1: for every pool size `N ≥ 1` and every interleaving of
enqueues, coordinator ticks and worker steps, every reachable state of
the coordinator system has at most `N` jobs whose status is
`Processing` or `Downloading`: the loop reaps finished futures and only
submits while the futures table is strictly below `N`. -/
theorem coordinator_inFlight_bounded (N : Nat) (hN : 1 ≤ N) (s : CoordState)
    (hs : CoordReachable N s) : countInFlight s ≤ N := by
  have h := coordInv_reachable hs
  exact le_trans (countInFlight_le_active h) h.2.1

/-- Witness for claim C1: with pool size 1, the state reached by
enqueueing job `a` and submitting it is reachable, satisfies the
hypotheses, and carries exactly one in-flight job. -/
theorem coordinator_inFlight_bounded_witness :
    1 ≤ 1 ∧ CoordReachable 1 ⟨[⟨"a", QueueStatus.processing⟩], [("a", false)]⟩ ∧
      countInFlight ⟨[⟨"a", QueueStatus.processing⟩], [("a", false)]⟩ ≤ 1 := by
  have h1 : CoordReachable 1 ⟨[⟨"a", QueueStatus.queued⟩], []⟩ := by
    have h := CoordReachable.step (CoordReachable.init (N := 1))
      (CoordStep.enqueue initCoord "a" (by simp [initCoord]))
    simpa [initCoord] using h
  have h2 : CoordReachable 1 ⟨[⟨"a", QueueStatus.processing⟩], [("a", false)]⟩ := by
    have h := CoordReachable.step h1
      (CoordStep.submit ⟨[⟨"a", QueueStatus.queued⟩], []⟩ "a"
        (by simp) (by simp))
    simpa [setStatus] using h
  exact ⟨le_refl 1, h2, coordinator_inFlight_bounded 1 (le_refl 1) _ h2⟩

theorem entryLe_refl (a : QEntry) : entryLe a a := Or.inr ⟨rfl, le_refl _⟩

theorem entryLe_trans {a b c : QEntry} (h1 : entryLe a b) (h2 : entryLe b c) :
    entryLe a c := by
  rcases h1 with h1 | ⟨h1, h1s⟩ <;> rcases h2 with h2 | ⟨h2, h2s⟩ <;>
    simp only [entryLe] <;> omega

theorem entryLe_of_before {a b : QEntry} (h : entryBefore a b = true) :
    entryLe a b := by
  simp only [entryBefore, Bool.or_eq_true, Bool.and_eq_true,
    decide_eq_true_eq] at h
  rcases h with h | ⟨h, hs⟩
  · exact Or.inl h
  · exact Or.inr ⟨h, le_of_lt hs⟩

theorem entryLe_of_not_before {a b : QEntry} (h : entryBefore b a = false) :
    entryLe a b := by
  simp only [entryBefore, Bool.or_eq_false_iff, Bool.and_eq_false_iff,
    decide_eq_false_iff_not] at h
  simp only [entryLe]
  omega

theorem selectMin_fst_min (x : QEntry) (l : List QEntry) :
    ∀ z, (z = x ∨ z ∈ l) → entryLe (selectMin x l).1 z := by
  induction l generalizing x with
  | nil =>
    intro z hz
    rcases hz with hz | hz
    · rw [hz]; exact entryLe_refl _
    · cases hz
  | cons y ys ih =>
    intro z hz
    simp only [selectMin]
    split
    case isTrue hb =>
      show entryLe (selectMin y ys).1 z
      have hyy : entryLe (selectMin y ys).1 y := ih y y (Or.inl rfl)
      rcases hz with hz | hz
      · rw [hz]; exact entryLe_trans hyy (entryLe_of_before hb)
      · rcases List.mem_cons.1 hz with hz2 | hz2
        · rw [hz2]; exact hyy
        · exact ih y z (Or.inr hz2)
    case isFalse hb =>
      show entryLe (selectMin x ys).1 z
      have hb2 : entryBefore y x = false := by
        revert hb
        cases entryBefore y x <;> simp
      have hxx : entryLe (selectMin x ys).1 x := ih x x (Or.inl rfl)
      rcases hz with hz | hz
      · rw [hz]; exact hxx
      · rcases List.mem_cons.1 hz with hz2 | hz2
        · rw [hz2]; exact entryLe_trans hxx (entryLe_of_not_before hb2)
        · exact ih x z (Or.inr hz2)

theorem selectMin_perm (x : QEntry) (l : List QEntry) :
    List.Perm ((selectMin x l).1 :: (selectMin x l).2) (x :: l) := by
  induction l generalizing x with
  | nil => exact List.Perm.refl _
  | cons y ys ih =>
    simp only [selectMin]
    split
    case isTrue hb =>
      show List.Perm ((selectMin y ys).1 :: x :: (selectMin y ys).2) (x :: y :: ys)
      exact (List.Perm.swap x (selectMin y ys).1 (selectMin y ys).2).trans ((ih y).cons x)
    case isFalse hb =>
      show List.Perm ((selectMin x ys).1 :: y :: (selectMin x ys).2) (x :: y :: ys)
      exact ((List.Perm.swap y (selectMin x ys).1 (selectMin x ys).2).trans
        ((ih x).cons y)).trans (List.Perm.swap x y ys)

theorem drain_perm (l : List QEntry) : List.Perm (drain l) l := by
  induction l using drain.induct with
  | case1 =>
    rw [drain]
  | case2 x xs p hp =>
    rw [drain]
    show List.Perm ((selectMin x xs).1 :: drain (selectMin x xs).2) (x :: xs)
    exact (List.Perm.cons (selectMin x xs).1 hp).trans (selectMin_perm x xs)

theorem drain_sorted (l : List QEntry) : (drain l).Pairwise entryLe := by
  induction l using drain.induct with
  | case1 =>
    rw [drain]
    exact List.Pairwise.nil
  | case2 x xs p hp =>
    rw [drain]
    show ((selectMin x xs).1 :: drain (selectMin x xs).2).Pairwise entryLe
    refine List.Pairwise.cons ?_ hp
    intro z hz
    have hz2 : z ∈ (selectMin x xs).2 := (drain_perm _).mem_iff.1 hz
    have hz3 : z ∈ x :: xs :=
      (selectMin_perm x xs).mem_iff.1 (List.mem_cons_of_mem _ hz2)
    exact selectMin_fst_min x xs z (List.mem_cons.1 hz3)

theorem get_next_drain {l : List QEntry} {m : QEntry} {rest : List QEntry}
    (h : get_next l = some (m, rest)) : drain l = m :: drain rest := by
  cases l with
  | nil => cases h
  | cons x xs =>
    simp only [get_next, Option.some.injEq] at h
    rw [drain, h]

/-- Claim C6: for every sequence of enqueue operations (the i-th enqueue
receiving insertion sequence number i), the jobs handed out by
successive `get_next` calls (the list `drain`) are in non-decreasing
priority order, and jobs of equal priority come out in enqueue order. -/
theorem get_next_priority_fifo (es : List (String × Int)) :
    (drain (entriesOf es)).Pairwise entryLe :=
  drain_sorted (entriesOf es)

theorem procStatus_terminal (cfg : WorkerCfg) (bid : String) (env : WorkerEnv) :
    isTerminal (processSingleDownload cfg bid env).status = true := by
  cases h5 : flagSeen env 5 <;> cases hd : (downloadBook cfg bid env).ret <;>
    simp [processSingleDownload, h5, hd, isTerminal]

theorem publishPhase_raised_ret_none {bookName : String} {env : WorkerEnv}
    {fs2 : FS} (hr : (publishPhase bookName env fs2).raised = true) :
    (publishPhase bookName env fs2).ret = none := by
  revert hr
  simp only [publishPhase]
  split_ifs <;> simp

theorem postFetchPhase_raised_ret_none {cfg : WorkerCfg} {env : WorkerEnv}
    {bookName : String} {fs1 : FS}
    (hr : (postFetchPhase cfg env bookName fs1).raised = true) :
    (postFetchPhase cfg env bookName fs1).ret = none := by
  revert hr
  simp only [postFetchPhase]
  split_ifs <;> try simp
  all_goals exact fun hr => publishPhase_raised_ret_none hr

theorem downloadBook_raised_ret_none {cfg : WorkerCfg} {bid : String} {env : WorkerEnv}
    (hr : (downloadBook cfg bid env).raised = true) :
    (downloadBook cfg bid env).ret = none := by
  revert hr
  simp only [downloadBook]
  split_ifs <;> try simp
  exact fun hr => postFetchPhase_raised_ret_none hr

theorem publishPhase_fin_absent {bookName : String} {env : WorkerEnv} {fs2 : FS}
    (hf : fs2.fin = FileState.absent) (h4 : flagSeen env 4 = true) :
    (publishPhase bookName env fs2).fs.fin = FileState.absent := by
  simp only [publishPhase]
  split_ifs <;> simp_all

theorem postFetchPhase_fin_absent {cfg : WorkerCfg} {env : WorkerEnv}
    {bookName : String} {fs1 : FS}
    (hf : fs1.fin = FileState.absent) (h4 : flagSeen env 4 = true) :
    (postFetchPhase cfg env bookName fs1).fs.fin = FileState.absent := by
  simp only [postFetchPhase]
  split_ifs <;> try simp [hf]
  all_goals exact publishPhase_fin_absent (by simp [hf]) h4

theorem downloadBook_fin_absent {cfg : WorkerCfg} {bid : String} {env : WorkerEnv}
    (h4 : flagSeen env 4 = true) :
    (downloadBook cfg bid env).fs.fin = FileState.absent := by
  simp only [downloadBook]
  split_ifs <;> try simp [fs0]
  exact postFetchPhase_fin_absent rfl h4

theorem callbackStatuses_from_downloading (n : Nat) :
    callbackStatuses n QueueStatus.downloading =
      List.replicate n QueueStatus.downloading := by
  induction n with
  | zero => rfl
  | succ n ih =>
    simp [callbackStatuses, progressStep, update_download_progress, ih,
      List.replicate_succ]

theorem callbackStatuses_succ (n : Nat) :
    callbackStatuses (n + 1) QueueStatus.processing =
      QueueStatus.downloading :: List.replicate n QueueStatus.downloading := by
  simp [callbackStatuses, progressStep, update_download_progress,
    callbackStatuses_from_downloading]

/-- Counterexample for claim C2: the invariant that the download path is
set exactly on `Available` jobs holds before `get_book_data` is called
on an `Available` job whose file has become unreadable, and is broken by
that call: the record keeps status `Available` but loses its path. -/
theorem get_book_data_breaks_path_inv :
    pathStatusInv ⟨QueueStatus.available, some "/ingest/x.epub"⟩ ∧
    (get_book_data ⟨QueueStatus.available, some "/ingest/x.epub"⟩ false).2.status
      = QueueStatus.available ∧
    (get_book_data ⟨QueueStatus.available, some "/ingest/x.epub"⟩ false).2.download_path
      = none ∧
    ¬ pathStatusInv (get_book_data ⟨QueueStatus.available, some "/ingest/x.epub"⟩ false).2 := by
  refine ⟨by simp [pathStatusInv], rfl, rfl, by simp [pathStatusInv, get_book_data]⟩

/-- Claim C2 (amended): at the end of every worker run, the download
path written by `_process_single_download` is set if and only if the
terminal status is `Available`.  (The full invariant over all
operations fails: see the counterexample on `get_book_data`.) -/
theorem worker_path_iff_available (cfg : WorkerCfg) (bid : String) (env : WorkerEnv) :
    (processSingleDownload cfg bid env).downloadPath ≠ none ↔
      (processSingleDownload cfg bid env).status = QueueStatus.available := by
  cases h5 : flagSeen env 5 <;> cases hd : (downloadBook cfg bid env).ret <;>
    simp [processSingleDownload, h5, hd]

/-- Worker environment in which the fetch succeeds and a configured
custom script removes the staging file (for example by converting and
deleting the original). -/
def scriptEatsFileEnv : WorkerEnv :=
  { cancelAt := none, metaOk := true, meta := ⟨"Dune", "epub"⟩,
    fetchRaises := false, fetchSuccess := true,
    tmpAfterFetch := FileState.complete, progressCalls := 1,
    scriptRaises := false, scriptKeepsTmp := false,
    moveSucceeds := true, renameRaises := false }

/-- Claim C3 (code bug): when the staging file no longer exists after
the post-processing hook, the publish block of backend.py lines 181-201
is skipped but line 204 still returns the final path, so the job ends
`Available` with `downloadPath` set while no file exists at the public
ingest path — contradicting the spec requirement that `downloadPath`
and `Available` are set only after a successful publish. -/
theorem available_without_published_file :
    (processSingleDownload ⟨false, true⟩ "b1" scriptEatsFileEnv).status
      = QueueStatus.available ∧
    (processSingleDownload ⟨false, true⟩ "b1" scriptEatsFileEnv).downloadPath
      = some "b1.epub" ∧
    (processSingleDownload ⟨false, true⟩ "b1" scriptEatsFileEnv).fs.fin
      = FileState.absent := by
  refine ⟨rfl, rfl, rfl⟩

/-- Worker environment for a run that is cancelled only after the final
rename: the flag is set while the job is `Downloading` (progress was
reported), and the first checkpoint to observe it is checkpoint 5
(backend.py line 277), after `os.rename` has published the file. -/
def cancelAfterRenameEnv : WorkerEnv :=
  { cancelAt := some 5, metaOk := true, meta := ⟨"Dune", "epub"⟩,
    fetchRaises := false, fetchSuccess := true,
    tmpAfterFetch := FileState.complete, progressCalls := 1,
    scriptRaises := false, scriptKeepsTmp := true,
    moveSucceeds := true, renameRaises := false }

/-- Counterexample for claim C4: a cancellation signal set while the job
is `Downloading` but first observed after the public rename still ends
in terminal state `Cancelled`, yet the published file remains at the
public ingest path. -/
theorem cancel_after_rename_leaves_published_file :
    QueueStatus.downloading ∈
      (processSingleDownload ⟨false, false⟩ "b1" cancelAfterRenameEnv).statusTrace ∧
    (processSingleDownload ⟨false, false⟩ "b1" cancelAfterRenameEnv).status
      = QueueStatus.cancelled ∧
    (processSingleDownload ⟨false, false⟩ "b1" cancelAfterRenameEnv).fs.fin
      = FileState.complete := by
  refine ⟨by decide, rfl, rfl⟩

/-- Claim C4 (amended): if the cancellation signal is observed at any
worker checkpoint up to and including checkpoint 4 (the check before
the final rename, backend.py line 195), the terminal state is
`Cancelled` and no file is left at the public ingest path; a signal
observed only after the rename still yields `Cancelled` but cannot
suppress the already published file. -/
theorem cancel_before_rename_cancelled_clean (cfg : WorkerCfg) (bid : String)
    (env : WorkerEnv) (t : Nat) (hc : env.cancelAt = some t) (ht : t ≤ 4) :
    (processSingleDownload cfg bid env).status = QueueStatus.cancelled ∧
    (processSingleDownload cfg bid env).fs.fin = FileState.absent := by
  have h4 : flagSeen env 4 = true := by
    simp only [flagSeen, hc, decide_eq_true_eq]
    exact ht
  have h5 : flagSeen env 5 = true := by
    simp only [flagSeen, hc, decide_eq_true_eq]
    omega
  constructor
  · simp [processSingleDownload, h5]
  · simpa [processSingleDownload] using downloadBook_fin_absent h4

/-- Worker environment cancelled during the download, observed first at
checkpoint 2 (backend.py line 157). -/
def cancelMidDownloadEnv : WorkerEnv :=
  { cancelAt := some 2, metaOk := true, meta := ⟨"Dune", "epub"⟩,
    fetchRaises := false, fetchSuccess := false,
    tmpAfterFetch := FileState.halfWritten, progressCalls := 1,
    scriptRaises := false, scriptKeepsTmp := true,
    moveSucceeds := true, renameRaises := false }

/-- Witness for the amended claim C4 at a concrete cancelled run. -/
theorem cancel_before_rename_cancelled_clean_witness :
    (cancelMidDownloadEnv.cancelAt = some 2 ∧ 2 ≤ 4) ∧
    (processSingleDownload ⟨false, false⟩ "b1" cancelMidDownloadEnv).status
      = QueueStatus.cancelled ∧
    (processSingleDownload ⟨false, false⟩ "b1" cancelMidDownloadEnv).fs.fin
      = FileState.absent :=
  ⟨⟨rfl, by decide⟩,
    cancel_before_rename_cancelled_clean ⟨false, false⟩ "b1"
      cancelMidDownloadEnv 2 rfl (by decide)⟩

theorem unique_by_bookId {jobs : List JobRec}
    (hnd : (jobs.map JobRec.bookId).Nodup) {j1 j2 : JobRec}
    (h1 : j1 ∈ jobs) (h2 : j2 ∈ jobs) (he : j1.bookId = j2.bookId) : j1 = j2 :=
  List.inj_on_of_nodup_map hnd h1 h2 he

theorem error_stays_terminal_step {N : Nat} {s t : CoordState}
    (hstep : CoordStep N s t) (hnd : (s.jobs.map JobRec.bookId).Nodup)
    {bid : String} (herr : (⟨bid, QueueStatus.error⟩ : JobRec) ∈ s.jobs) :
    ∀ j ∈ t.jobs, j.bookId = bid → isTerminal j.status = true := by
  cases hstep with
  | enqueue bid2 hfresh =>
    intro j hj hb
    rcases List.mem_append.1 hj with h | h
    · have := unique_by_bookId hnd h herr hb
      rw [this]
      rfl
    · rw [List.mem_singleton] at h
      subst h
      exfalso
      apply hfresh
      have hb2 : bid2 = bid := hb
      rw [hb2]
      exact List.mem_map_of_mem JobRec.bookId herr
  | submit bid2 hcap hq =>
    intro j hj hb
    have hbb : bid2 ≠ bid := by
      intro hc
      subst hc
      have := unique_by_bookId hnd hq herr rfl
      simp at this
    obtain ⟨j0, hj0, hj0eq⟩ := List.mem_map.1 hj
    by_cases h : j0.bookId = bid2
    · exfalso
      apply hbb
      rw [← hb, ← hj0eq, if_pos h]
      exact h.symm ▸ rfl
    · rw [if_neg h] at hj0eq
      subst hj0eq
      have := unique_by_bookId hnd hj0 herr hb
      rw [this]
      rfl
  | progress bid2 hrun =>
    intro j hj hb
    obtain ⟨j0, hj0, hj0eq⟩ := List.mem_map.1 hj
    have hb0 : j0.bookId = bid := by
      rw [← hb, ← hj0eq]
      by_cases h : j0.bookId = bid2 <;> simp [h]
    have hj0e := unique_by_bookId hnd hj0 herr hb0
    rw [← hj0eq, hj0e]
    by_cases h : (⟨bid, QueueStatus.error⟩ : JobRec).bookId = bid2 <;>
      simp [h, progressStep, update_download_progress, isTerminal]
  | finish bid2 t2 hrun ht =>
    intro j hj hb
    obtain ⟨j0, hj0, hj0eq⟩ := List.mem_map.1 hj
    by_cases h : j0.bookId = bid2
    · rw [if_pos h] at hj0eq
      rw [← hj0eq]
      exact ht
    · rw [if_neg h] at hj0eq
      subst hj0eq
      have := unique_by_bookId hnd hj0 herr hb
      rw [this]
      rfl
  | reap =>
    intro j hj hb
    have := unique_by_bookId hnd hj herr hb
    rw [this]
    rfl

/-- Claim C5: every worker run ends with a terminal status (`Available`,
`Error` or `Cancelled`) — `_process_single_download` never leaves a job
in `Processing` or `Downloading` — a run in which an exception was
raised and swallowed ends in `Error`, or in `Cancelled` when the
cancellation signal is observed, and a job that has reached `Error` is
never retried automatically: no transition of the coordinator system
ever takes it back to a non-terminal status. -/
theorem worker_run_terminal_error_mapping :
    (∀ (cfg : WorkerCfg) (bid : String) (env : WorkerEnv),
      isTerminal (processSingleDownload cfg bid env).status = true ∧
      ((downloadBook cfg bid env).raised = true →
        (processSingleDownload cfg bid env).status = QueueStatus.error ∨
        (processSingleDownload cfg bid env).status = QueueStatus.cancelled)) ∧
    (∀ (N : Nat) (s t : CoordState) (bid : String),
      CoordReachable N s → CoordStep N s t →
      (⟨bid, QueueStatus.error⟩ : JobRec) ∈ s.jobs →
      ∀ j ∈ t.jobs, j.bookId = bid → isTerminal j.status = true) := by
  constructor
  · intro cfg bid env
    refine ⟨procStatus_terminal cfg bid env, ?_⟩
    intro hr
    have hret := downloadBook_raised_ret_none hr
    cases h5 : flagSeen env 5 <;> simp [processSingleDownload, h5, hret]
  · intro N s t bid hreach hstep herr
    exact error_stays_terminal_step hstep (coordInv_reachable hreach).1 herr

/-- Worker environment in which the fetch collaborator raises. -/
def fetchRaisesEnv : WorkerEnv :=
  { cancelAt := none, metaOk := true, meta := ⟨"Dune", "epub"⟩,
    fetchRaises := true, fetchSuccess := false,
    tmpAfterFetch := FileState.halfWritten, progressCalls := 1,
    scriptRaises := false, scriptKeepsTmp := true,
    moveSucceeds := true, renameRaises := false }

/-- Witness for claim C5: a run whose fetch raises satisfies the
hypothesis of the error-mapping implication and ends in `Error`, and a
concrete coordinator step from a reachable state holding an `Error` job
leaves that job terminal. -/
theorem worker_run_terminal_error_mapping_witness :
    (downloadBook ⟨false, false⟩ "b1" fetchRaisesEnv).raised = true ∧
    ((processSingleDownload ⟨false, false⟩ "b1" fetchRaisesEnv).status
        = QueueStatus.error ∨
      (processSingleDownload ⟨false, false⟩ "b1" fetchRaisesEnv).status
        = QueueStatus.cancelled) ∧
    (∀ j ∈ ([⟨"a", QueueStatus.error⟩] : List JobRec), j.bookId = "a" →
      isTerminal j.status = true) := by
  refine ⟨rfl,
    (worker_run_terminal_error_mapping.1 ⟨false, false⟩ "b1" fetchRaisesEnv).2 rfl, ?_⟩
  have h1 : CoordReachable 1 ⟨[⟨"a", QueueStatus.queued⟩], []⟩ := by
    have h := CoordReachable.step (CoordReachable.init (N := 1))
      (CoordStep.enqueue initCoord "a" (by simp [initCoord]))
    simpa [initCoord] using h
  have h2 : CoordReachable 1 ⟨[⟨"a", QueueStatus.processing⟩], [("a", false)]⟩ := by
    have h := CoordReachable.step h1
      (CoordStep.submit ⟨[⟨"a", QueueStatus.queued⟩], []⟩ "a" (by simp) (by simp))
    simpa [setStatus] using h
  have h3 : CoordReachable 1 ⟨[⟨"a", QueueStatus.error⟩], [("a", true)]⟩ := by
    have h := CoordReachable.step h2
      (CoordStep.finish ⟨[⟨"a", QueueStatus.processing⟩], [("a", false)]⟩ "a"
        QueueStatus.error (by simp) rfl)
    simpa [setStatus, markDone] using h
  have hr : CoordStep 1 ⟨[⟨"a", QueueStatus.error⟩], [("a", true)]⟩
      ⟨[⟨"a", QueueStatus.error⟩], []⟩ := by
    have h := CoordStep.reap (N := 1) ⟨[⟨"a", QueueStatus.error⟩], [("a", true)]⟩
    simpa using h
  exact worker_run_terminal_error_mapping.2 1
    ⟨[⟨"a", QueueStatus.error⟩], [("a", true)]⟩
    ⟨[⟨"a", QueueStatus.error⟩], []⟩ "a" h3 hr (by simp)

/-- Claim C7: the job record passes through status `Downloading` exactly
when the fetch call was reached and at least one progress callback was
invoked; the first callback performs the `Processing → Downloading`
transition, and a run that fails or is cancelled before any callback
never reaches `Downloading`. -/
theorem downloading_entered_iff (cfg : WorkerCfg) (bid : String) (env : WorkerEnv) :
    QueueStatus.downloading ∈ (processSingleDownload cfg bid env).statusTrace ↔
      ((downloadBook cfg bid env).fetchInvoked = true ∧ 1 ≤ env.progressCalls) := by
  cases hfi : (downloadBook cfg bid env).fetchInvoked <;>
    cases h5 : flagSeen env 5 <;>
      cases hd : (downloadBook cfg bid env).ret <;>
        cases hn : env.progressCalls <;>
          simp [processSingleDownload, hfi, h5, hd, hn, callbackStatuses_succ,
            List.mem_replicate, callbackStatuses]

/-- Worker environment of a clean run with a configured custom script:
the script launches and runs (whatever its exit status, which the code
never inspects) and leaves the staging file in place. -/
def hookRunEnv : WorkerEnv :=
  { cancelAt := none, metaOk := true, meta := ⟨"Dune", "epub"⟩,
    fetchRaises := false, fetchSuccess := true,
    tmpAfterFetch := FileState.complete, progressCalls := 1,
    scriptRaises := false, scriptKeepsTmp := true,
    moveSucceeds := true, renameRaises := false }

/-- Worker environment in which the configured custom script cannot be
launched, so `subprocess.run` raises. -/
def hookRaisesEnv : WorkerEnv :=
  { hookRunEnv with scriptRaises := true }

/-- Counterexample for claim C8: when the configured post-processing
hook is unrunnable, `subprocess.run` raises, the exception escapes to
the catch-all at backend.py line 205, and the job terminates in `Error`
rather than proceeding to `Available`. -/
theorem script_unrunnable_gives_error :
    (processSingleDownload ⟨false, true⟩ "b1" hookRaisesEnv).status
      = QueueStatus.error ∧
    (processSingleDownload ⟨false, true⟩ "b1" hookRaisesEnv).status
      ≠ QueueStatus.available := by
  refine ⟨rfl, by decide⟩

/-- Claim C8 (amended): a post-processing hook that launches is
fire-and-forget — its exit status is never inspected, so a failing hook
does not prevent the job from publishing and reaching `Available` —
but a hook whose launch raises aborts the job to `Error` (see the
counterexample). -/
theorem script_failure_nonfatal (cfg : WorkerCfg) (bid : String) (env : WorkerEnv)
    (hcs : cfg.hasCustomScript = true)
    (hca : env.cancelAt = none) (hmo : env.metaOk = true)
    (hfr : env.fetchRaises = false) (hfs : env.fetchSuccess = true)
    (htmp : env.tmpAfterFetch = FileState.complete)
    (hsr : env.scriptRaises = false) (hskt : env.scriptKeepsTmp = true)
    (hms : env.moveSucceeds = true) (hrr : env.renameRaises = false) :
    (processSingleDownload cfg bid env).status = QueueStatus.available ∧
    (processSingleDownload cfg bid env).fs.fin = FileState.complete := by
  have hflag : ∀ k, flagSeen env k = false := fun k => by simp [flagSeen, hca]
  simp [processSingleDownload, downloadBook, postFetchPhase, publishPhase,
    fs0, hflag, hmo, hfr, hfs, htmp, hsr, hskt, hms, hrr, hcs]

/-- Witness for the amended claim C8 at a concrete run with a
configured hook. -/
theorem script_failure_nonfatal_witness :
    ((⟨false, true⟩ : WorkerCfg).hasCustomScript = true ∧
      hookRunEnv.cancelAt = none) ∧
    (processSingleDownload ⟨false, true⟩ "b1" hookRunEnv).status
      = QueueStatus.available ∧
    (processSingleDownload ⟨false, true⟩ "b1" hookRunEnv).fs.fin
      = FileState.complete :=
  ⟨⟨rfl, rfl⟩,
    script_failure_nonfatal ⟨false, true⟩ "b1" hookRunEnv
      rfl rfl rfl rfl rfl rfl rfl rfl rfl rfl⟩

/-- Counterexample for claim C9: with `USE_BOOK_TITLE` enabled, two
distinct jobs whose books share a (sanitized) title and format derive
the same staging filename, so two concurrent jobs collide on the same
staging path. -/
theorem staging_name_collision_title_mode :
    bookFileName true "id1" "Dune" "epub" = bookFileName true "id2" "Dune" "epub" ∧
    "id1" ≠ "id2" := by
  refine ⟨by decide, by decide⟩

/-- Claim C9 (amended): with `USE_BOOK_TITLE` disabled (the id-based
naming), two jobs with distinct book identifiers and the same format
never collide on the staging path; with `USE_BOOK_TITLE` enabled,
collisions are possible (see the counterexample). -/
theorem staging_names_distinct_id_mode (id1 id2 t1 t2 fmt : String)
    (hne : id1 ≠ id2) :
    bookFileName false id1 t1 fmt ≠ bookFileName false id2 t2 fmt := by
  intro heq
  apply hne
  simp only [bookFileName, Bool.false_eq_true, if_false] at heq
  have hd := congrArg String.data heq
  simp only [String.data_append] at hd
  have h1 := List.append_cancel_right hd
  have h2 := List.append_cancel_right h1
  cases id1
  cases id2
  exact congrArg String.mk (by simpa using h2)

/-- Witness for the amended claim C9 at concrete distinct identifiers. -/
theorem staging_names_distinct_id_mode_witness :
    ("a" : String) ≠ "b" ∧
      bookFileName false "a" "Dune" "epub" ≠ bookFileName false "b" "Dune" "epub" :=
  ⟨by decide, staging_names_distinct_id_mode "a" "b" "Dune" "Dune" "epub" (by decide)⟩

/-- Claim C10: `update_download_progress` changes the status field only
when the current status is `Processing` (flipping it to `Downloading`)
and leaves it unchanged for every other status — in particular the
terminal states `Available`, `Error` and `Cancelled` — while always
writing the progress value. -/
theorem update_progress_frame {π : Type} (j : TrackedJob π) (p : π) :
    (update_download_progress j p).status =
      (if j.status = QueueStatus.processing
        then QueueStatus.downloading else j.status) ∧
    (update_download_progress j p).progress = p := by
  by_cases h : j.status = QueueStatus.processing <;>
    simp [update_download_progress, h]

end CWABD
